import Mathlib

/-!
# Verification of the AIOS incremental backup engine

Shallow embedding of `src/AIOS/backup_core/rust_backup/src/lib.rs`
(`RustBackupCore`), the incremental, content-addressed backup engine, and
proofs of the spec's claims about it.

Modelling conventions:

* A filesystem path is its list of components (`Path := List String`).
  The source keys its checksum map by `file_path.to_string_lossy()`, an
  injective canonical rendering of the (absolute) path; the component list
  plays that role here.
* File content is a byte list (`Content := List Nat`).
* The source filesystem visible to a run is an association list
  `FS := List (Path × Option Content)`: an entry `(p, some c)` is a readable
  file with content `c`, an entry `(p, none)` is a file that exists (so it is
  enumerated) but whose read fails with an I/O error, and an absent key is an
  absent file.
* SHA-256 (`calculate_file_checksum`) is abstracted as a parameter
  `hash : Content → Digest`; claims that rely on collision resistance take
  `Function.Injective hash` as a hypothesis.
* Rust's `Result<T, anyhow::Error>` is embedded as `Option T`: `none` stands
  for `Err(_)`, i.e. an error propagated to the caller (the PyO3 wrapper
  `PyRustBackupCore::create_backup` turns it into a Python exception).
  Failures of the metadata writes (`file_checksums.json`,
  `backup_tracking.json`) and of directory creation are ambient I/O faults
  outside the pure state and are not modelled; file reads and copies, whose
  failures the claims are about, are.
* Wall-clock time is not modelled: `time_taken_ms` is omitted from the
  embedded `BackupResult`, and `update_backup_timestamp` takes the current
  time `now` as a parameter.  `backup_path`, a constant rendering of the
  active-backup directory, is also omitted.
-/

namespace AIOSBackup

/-- A filesystem path as its list of components.  Also used as the canonical
key form of a path (the source uses `to_string_lossy()`, an injective string
rendering of the path). -/
abbrev Path := List String

/-- File content as a list of bytes. -/
abbrev Content := List Nat

/-- Digest of a file's content (the source uses a 64-char lowercase hex
SHA-256 string; only its dependence on the content matters here). -/
abbrev Digest := List Nat

/-- The source tree visible to a run: `(p, some c)` is a readable file,
`(p, none)` a file that exists but cannot be read. -/
abbrev FS := List (Path × Option Content)

/-- First-match association-list lookup (the observable behaviour of
`HashMap::get` / of a file lookup in a directory tree). -/
def lookupKey {β : Type} (k : Path) : List (Path × β) → Option β
  | [] => none
  | (k', v) :: rest => if k' = k then some v else lookupKey k rest

/-- Replace-style insert: the observable behaviour of `HashMap::insert` and
of overwriting a file at a path. -/
def insertKey {β : Type} (m : List (Path × β)) (k : Path) (v : β) :
    List (Path × β) :=
  (k, v) :: m

/-- Read a file's bytes (`fs::read`): `none` when the file is missing or the
read fails. -/
def readFile (fs : FS) (p : Path) : Option Content :=
  (lookupKey p fs).bind id

/-- `file_path.strip_prefix(&current_dir)`: the path relative to the project
root, or `none` when the path does not resolve under the root. -/
def relTo (cwd p : Path) : Option Path :=
  if cwd.isPrefixOf p then some (p.drop cwd.length) else none

/-- The fixed list of always-included top-level directories
(`core_dirs` in `get_files_to_backup`). -/
def coreDirs : List String :=
  ["carma_core", "data_core", "dream_core", "enterprise_core",
   "luna_core", "streamlit_core", "support_core", "utils_core"]

/-- The fixed list of top-level manifest files (`main_files`). -/
def mainFiles : List String :=
  ["main.py", "requirements.txt", "README.md"]

/-- The stop-set of path components pruned during the core-directory walk. -/
def skipNames : List String :=
  [".git", "__pycache__", ".pytest_cache", "node_modules"]

/-- `path.components().any(...)` over the stop-set. -/
def hasSkipComponent (p : Path) : Bool :=
  p.any (fun c => skipNames.contains c)

/-- All files of `fs` under directory `d` (the file set produced by
`WalkDir::new(d)` restricted to file entries). -/
def filesUnder (fs : FS) (d : Path) : List Path :=
  (fs.filter (fun e => d.isPrefixOf e.1)).map Prod.fst

/-- `RustBackupCore::get_files_to_backup`: the candidate set of a run.
Walk order inside a directory is unspecified in the source (spec §4.4
treats the result as a set), so each walk is embedded as a filter of `fs`
in `fs` order.  Note that `include_data` is accepted but never read, and
that the stop-set pruning applies only to the core-directory walks,
exactly as in the source. -/
def getFilesToBackup (fs : FS) (cwd : Path)
    (include_data include_logs include_config : Bool) : List Path :=
  (coreDirs.flatMap (fun d =>
      (filesUnder fs (cwd ++ [d])).filter (fun p => !hasSkipComponent p)))
  ++ mainFiles.filterMap (fun m =>
      if (lookupKey (cwd ++ [m]) fs).isSome then some (cwd ++ [m]) else none)
  ++ (if include_config then filesUnder fs (cwd ++ ["config"]) else [])
  ++ (if include_logs then filesUnder fs (cwd ++ ["log"]) else [])

/-- `RustBackupCore::calculate_file_checksum`: hash of the file's full
content; fails when the read fails. -/
def calculateFileChecksum (hash : Content → Digest) (fs : FS) (p : Path) :
    Option Digest :=
  (readFile fs p).map hash

/-- `RustBackupCore::get_changed_files`: the candidates whose current
checksum differs from the stored one (or that have no stored entry).
The checksum map is keyed by the candidate's full path. -/
def getChangedFiles (hash : Content → Digest) (fs : FS)
    (store : List (Path × Digest)) : List Path → Option (List Path)
  | [] => some []
  | p :: rest =>
    match calculateFileChecksum hash fs p with
    | none => none
    | some cur =>
      match getChangedFiles hash fs store rest with
      | none => none
      | some tail =>
        if lookupKey p store = some cur then some tail else some (p :: tail)

/-- The loop body of `RustBackupCore::archive_changed_files` over the changed
set, accumulating the archive tree: paths outside the project root are
skipped, and a changed path is copied from the active mirror only when the
mirror holds an entry for it. -/
def archiveLoop (cwd : Path) (mirror : List (Path × Content))
    (arch : List (Path × Content)) : List Path → List (Path × Content)
  | [] => arch
  | p :: rest =>
    match relTo cwd p with
    | none => archiveLoop cwd mirror arch rest
    | some rel =>
      match lookupKey rel mirror with
      | none => archiveLoop cwd mirror arch rest
      | some c => archiveLoop cwd mirror (insertKey arch rel c) rest

/-- `RustBackupCore::archive_changed_files`: delete the whole archive tree,
recreate it empty, then copy the mirror's (pre-change) entry of every
changed path into it. -/
def archiveChangedFiles (cwd : Path) (mirror : List (Path × Content))
    (changed : List Path) : List (Path × Content) :=
  archiveLoop cwd mirror [] changed

/-- `RustBackupCore::update_active_backup`: copy every candidate's current
content into the mirror at its relative path; a candidate outside the
project root is skipped; a failing copy (unreadable source) aborts. -/
def updateActiveBackup (fs : FS) (cwd : Path)
    (mirror : List (Path × Content)) : List Path → Option (List (Path × Content))
  | [] => some mirror
  | p :: rest =>
    match relTo cwd p with
    | none => updateActiveBackup fs cwd mirror rest
    | some rel =>
      match readFile fs p with
      | none => none
      | some c => updateActiveBackup fs cwd (insertKey mirror rel c) rest

/-- `RustBackupCore::update_file_checksums`: recompute and store the checksum
of every candidate, keyed by the candidate's full path; a failing read
aborts.  Entries for non-candidate keys are left in place. -/
def updateFileChecksums (hash : Content → Digest) (fs : FS)
    (store : List (Path × Digest)) : List Path → Option (List (Path × Digest))
  | [] => some store
  | p :: rest =>
    match readFile fs p with
    | none => none
    | some c => updateFileChecksums hash fs (insertKey store p (hash c)) rest

/-- The engine's mutable state together with the backup-root trees it owns:
the in-memory/persisted checksum map (keyed by full path), the active mirror
and the archive (both keyed by project-relative path), and the persisted
last-run timestamp. -/
structure EngineState where
  fileChecksums : List (Path × Digest)
  mirror : List (Path × Content)
  archive : List (Path × Content)
  lastBackupTimestamp : Nat
deriving DecidableEq, Repr

/-- The embedded `BackupResult` (without the unmodelled wall-clock
`time_taken_ms` and the constant `backup_path`). -/
structure BackupResult where
  success : Bool
  files_processed : Nat
  files_changed : Nat
  error_message : Option String
deriving DecidableEq, Repr

/-- `RustBackupCore::create_backup`: enumerate, detect changes, rotate the
archive when the changed set is non-empty, update the mirror for all
candidates, rewrite the checksum map, stamp the tracking record.  `none`
embeds `Err(_)`, which the PyO3 wrapper raises to the caller. -/
def createBackup (hash : Content → Digest) (fs : FS) (cwd : Path)
    (st : EngineState) (now : Nat)
    (include_data include_logs include_config : Bool) :
    Option (EngineState × BackupResult) :=
  let files := getFilesToBackup fs cwd include_data include_logs include_config
  match getChangedFiles hash fs st.fileChecksums files with
  | none => none
  | some changed =>
    let archive1 :=
      if changed.isEmpty then st.archive
      else archiveChangedFiles cwd st.mirror changed
    match updateActiveBackup fs cwd st.mirror files with
    | none => none
    | some mirror1 =>
      match updateFileChecksums hash fs st.fileChecksums files with
      | none => none
      | some store1 =>
        some ({ fileChecksums := store1, mirror := mirror1,
                archive := archive1, lastBackupTimestamp := now },
              { success := true, files_processed := files.length,
                files_changed := changed.length, error_message := none })

/-- Outcome of loading one persisted metadata file: the file is absent, its
read fails, its parse fails, or it parses to a value. -/
inductive ParseOutcome (α : Type) where
  | missing
  | unreadable
  | unparsable
  | parsed (v : α)
deriving DecidableEq

/-- The part of the engine state produced by `RustBackupCore::new` from the
persisted metadata files. -/
structure InitState where
  fileChecksums : List (Path × Digest)
  lastBackupTimestamp : Nat
deriving DecidableEq, Repr

/-- `RustBackupCore::new`, restricted to the loading of the two persisted
metadata files (directory creation is an unmodelled ambient I/O step).
An unparsable checksum file falls back to the empty map
(`serde_json::from_str(..).unwrap_or_default()`); an unparsable tracking
file propagates the parse error (`serde_json::from_str(&content)?`).
For the tracking file, `parsed v` carries the result of
`data.get("last_backup_timestamp").and_then(|v| v.as_u64())`. -/
def initCore (checksumsFile : ParseOutcome (List (Path × Digest)))
    (trackingFile : ParseOutcome (Option Nat)) : Option InitState :=
  match checksumsFile with
  | ParseOutcome.unreadable => none
  | ParseOutcome.missing => read2 []
  | ParseOutcome.unparsable => read2 []
  | ParseOutcome.parsed m => read2 m
where
  read2 (store : List (Path × Digest)) : Option InitState :=
    match trackingFile with
    | ParseOutcome.missing => some { fileChecksums := store, lastBackupTimestamp := 0 }
    | ParseOutcome.unreadable => none
    | ParseOutcome.unparsable => none
    | ParseOutcome.parsed v =>
      some { fileChecksums := store, lastBackupTimestamp := v.getD 0 }

/-! ## Concrete fixtures

Small concrete runs used to instantiate the claim theorems.  `fsOne` is the
spec's §8 scenario: a project root `r` holding one file
`data_core/x.txt` with content `"A"` (byte 65); `fsOneB` is the same tree
after editing the file to `"B"` (byte 66); `fsOneBad` is the same tree with
the file unreadable. -/

def fsOne : FS := [ ( ["r", "data_core", "x.txt"], some [65] ) ]

def fsOneB : FS := [ ( ["r", "data_core", "x.txt"], some [66] ) ]

def fsOneBad : FS := [ ( ["r", "data_core", "x.txt"], none ) ]

/-- A freshly initialized engine over an empty backup root. -/
def emptyEngine : EngineState :=
  { fileChecksums := [], mirror := [], archive := [], lastBackupTimestamp := 0 }

/-- The engine state after the first successful run over `fsOne`. -/
def engineAfterOne : EngineState :=
  { fileChecksums := [(["r", "data_core", "x.txt"], [65])],
    mirror := [(["data_core", "x.txt"], [65])],
    archive := [],
    lastBackupTimestamp := 7 }

/-- The engine state after a second successful run, over the edited tree
`fsOneB`, from `engineAfterOne`. -/
def engineAfterTwo : EngineState :=
  { fileChecksums := [(["r", "data_core", "x.txt"], [66]),
                      (["r", "data_core", "x.txt"], [65])],
    mirror := [(["data_core", "x.txt"], [66]),
               (["data_core", "x.txt"], [65])],
    archive := [(["data_core", "x.txt"], [65])],
    lastBackupTimestamp := 8 }

/-- The engine state after a second successful run over the unchanged tree
`fsOne`, from `engineAfterOne`. -/
def engineAfterIdem : EngineState :=
  { fileChecksums := [(["r", "data_core", "x.txt"], [65]),
                      (["r", "data_core", "x.txt"], [65])],
    mirror := [(["data_core", "x.txt"], [65]),
               (["data_core", "x.txt"], [65])],
    archive := [],
    lastBackupTimestamp := 8 }

/-! ## Basic lemmas about the map and path operations -/

theorem lookupKey_insertKey_self {β : Type} (m : List (Path × β)) (k : Path)
    (v : β) : lookupKey k (insertKey m k v) = some v := by
  simp [lookupKey, insertKey]

theorem lookupKey_insertKey_ne {β : Type} (m : List (Path × β)) (k k' : Path)
    (v : β) (h : k' ≠ k) : lookupKey k' (insertKey m k v) = lookupKey k' m := by
  simp [lookupKey, insertKey, Ne.symm h]

theorem relTo_eq_some_iff (cwd p r : Path) :
    relTo cwd p = some r ↔ p = cwd ++ r := by
  constructor
  · intro h
    unfold relTo at h
    split at h
    · next hp =>
      obtain ⟨t, ht⟩ := List.isPrefixOf_iff_prefix.mp hp
      subst ht
      simpa [List.drop_left] using h
    · exact absurd h (by simp)
  · intro h
    subst h
    unfold relTo
    rw [if_pos (List.isPrefixOf_iff_prefix.mpr ⟨r, rfl⟩)]
    simp [List.drop_left]

theorem mem_filesUnder_pref (fs : FS) (d p : Path) (h : p ∈ filesUnder fs d) :
    d <+: p := by
  simp only [filesUnder, List.mem_map, List.mem_filter] at h
  obtain ⟨e, ⟨_, he⟩, rfl⟩ := h
  exact List.isPrefixOf_iff_prefix.mp he

/-- Every candidate produced by the enumerator lies under the project root. -/
theorem getFilesToBackup_under_root (fs : FS) (cwd : Path)
    (d l c : Bool) (p : Path) (hp : p ∈ getFilesToBackup fs cwd d l c) :
    cwd <+: p := by
  simp only [getFilesToBackup, List.mem_append] at hp
  rcases hp with ((hcore | hmain) | hconf) | hlog
  · simp only [List.mem_flatMap, List.mem_filter] at hcore
    obtain ⟨dd, _, hmem, _⟩ := hcore
    exact (List.prefix_append cwd [dd]).trans (mem_filesUnder_pref _ _ _ hmem)
  · simp only [List.mem_filterMap] at hmain
    obtain ⟨m, _, hm⟩ := hmain
    split at hm
    · cases hm
      exact List.prefix_append cwd [m]
    · exact absurd hm (by simp)
  · split at hconf
    · exact (List.prefix_append cwd ["config"]).trans
        (mem_filesUnder_pref _ _ _ hconf)
    · exact absurd hconf (by simp)
  · split at hlog
    · exact (List.prefix_append cwd ["log"]).trans
        (mem_filesUnder_pref _ _ _ hlog)
    · exact absurd hlog (by simp)

/-- A candidate under the root has a relative path, namely its suffix after
the root components. -/
theorem relTo_of_under_root (cwd p : Path) (h : cwd <+: p) :
    relTo cwd p = some (p.drop cwd.length) := by
  obtain ⟨t, rfl⟩ := h
  exact (relTo_eq_some_iff _ _ _).mpr (by simp [List.drop_left])

/-- Relative paths are injective over paths under the root: two candidates
with the same relative path are the same path. -/
theorem relTo_inj (cwd p q r : Path) (hp : relTo cwd p = some r)
    (hq : relTo cwd q = some r) : p = q := by
  rw [relTo_eq_some_iff] at hp hq
  rw [hp, hq]

/-! ## Change detector lemmas -/

/-- A successful change detection implies every candidate was readable. -/
theorem getChangedFiles_readable (hash : Content → Digest) (fs : FS)
    (store : List (Path × Digest)) :
    ∀ (files ch : List Path), getChangedFiles hash fs store files = some ch →
      ∀ p ∈ files, (readFile fs p).isSome := by
  intro files
  induction files with
  | nil => intro ch _ p hp; exact absurd hp (List.not_mem_nil p)
  | cons q rest ih =>
    intro ch h p hp
    unfold getChangedFiles at h
    cases hc : calculateFileChecksum hash fs q with
    | none => rw [hc] at h; exact absurd h (by simp)
    | some cur =>
      rw [hc] at h
      cases hr : getChangedFiles hash fs store rest with
      | none => rw [hr] at h; exact absurd h (by simp)
      | some tail =>
        rcases List.mem_cons.mp hp with rfl | hp'
        · unfold calculateFileChecksum at hc
          cases hread : readFile fs p
          · rw [hread] at hc; exact absurd hc (by simp)
          · simp [hread]
        · exact ih tail hr p hp'

/-- Membership in the changed set: a candidate is changed exactly when the
store has no entry for its key, or a different digest. -/
theorem mem_getChangedFiles (hash : Content → Digest) (fs : FS)
    (store : List (Path × Digest)) :
    ∀ (files ch : List Path), getChangedFiles hash fs store files = some ch →
      ∀ q, q ∈ ch ↔
        q ∈ files ∧ lookupKey q store ≠ Option.map hash (readFile fs q) := by
  intro files
  induction files with
  | nil =>
    intro ch h q
    unfold getChangedFiles at h
    cases h
    simp
  | cons p rest ih =>
    intro ch h q
    unfold getChangedFiles at h
    cases hc : calculateFileChecksum hash fs p with
    | none => rw [hc] at h; exact absurd h (by simp)
    | some cur =>
      rw [hc] at h
      cases hr : getChangedFiles hash fs store rest with
      | none => rw [hr] at h; exact absurd h (by simp)
      | some tail =>
        simp only [hc, hr] at h
        have hcur : Option.map hash (readFile fs p) = some cur := hc
        by_cases hs : lookupKey p store = some cur
        · rw [if_pos hs] at h
          cases h
          rw [ih ch hr q]
          constructor
          · rintro ⟨hq, hne⟩; exact ⟨List.mem_cons_of_mem p hq, hne⟩
          · rintro ⟨hq, hne⟩
            rcases List.mem_cons.mp hq with rfl | hq'
            · exact absurd (hs.trans hcur.symm) hne
            · exact ⟨hq', hne⟩
        · rw [if_neg hs] at h
          cases h
          rw [List.mem_cons, ih tail hr q]
          constructor
          · rintro (rfl | ⟨hq, hne⟩)
            · exact ⟨List.mem_cons_self q rest, by rw [hcur]; exact hs⟩
            · exact ⟨List.mem_cons_of_mem p hq, hne⟩
          · rintro ⟨hq, hne⟩
            rcases List.mem_cons.mp hq with rfl | hq'
            · exact Or.inl rfl
            · exact Or.inr ⟨hq', hne⟩

/-- Against an empty store, every candidate is changed, in enumeration
order. -/
theorem getChangedFiles_nil_store (hash : Content → Digest) (fs : FS) :
    ∀ (files ch : List Path), getChangedFiles hash fs [] files = some ch →
      ch = files := by
  intro files
  induction files with
  | nil => intro ch h; cases h; rfl
  | cons p rest ih =>
    intro ch h
    unfold getChangedFiles at h
    cases hc : calculateFileChecksum hash fs p with
    | none => rw [hc] at h; exact absurd h (by simp)
    | some cur =>
      rw [hc] at h
      cases hr : getChangedFiles hash fs [] rest with
      | none => rw [hr] at h; exact absurd h (by simp)
      | some tail =>
        simp only [hc, hr] at h
        rw [if_neg (by simp [lookupKey])] at h
        cases h
        rw [ih tail hr]

/-- When the store already records each candidate's current digest, nothing
is changed. -/
theorem getChangedFiles_up_to_date (hash : Content → Digest) (fs : FS)
    (store : List (Path × Digest)) (files ch : List Path)
    (h : getChangedFiles hash fs store files = some ch)
    (hup : ∀ p ∈ files, lookupKey p store = Option.map hash (readFile fs p)) :
    ch = [] := by
  rcases List.eq_nil_or_concat ch with rfl | _
  · rfl
  · rw [List.eq_nil_iff_forall_not_mem]
    intro q hq
    rw [mem_getChangedFiles hash fs store files ch h q] at hq
    exact hq.2 (hup q hq.1)

/-! ## Checksum-store update lemmas -/

/-- Full characterization of `update_file_checksums`: candidate keys get the
digest of their current content, every other key keeps its old binding. -/
theorem updateFileChecksums_lookup (hash : Content → Digest) (fs : FS) :
    ∀ (files : List Path) (store s' : List (Path × Digest)),
      updateFileChecksums hash fs store files = some s' →
      ∀ k, lookupKey k s' =
        if k ∈ files then Option.map hash (readFile fs k)
        else lookupKey k store := by
  intro files
  induction files with
  | nil =>
    intro store s' h k
    cases h
    simp
  | cons p rest ih =>
    intro store s' h k
    unfold updateFileChecksums at h
    cases hread : readFile fs p with
    | none => rw [hread] at h; exact absurd h (by simp)
    | some c =>
      simp only [hread] at h
      have hrec := ih (insertKey store p (hash c)) s' h k
      by_cases hk : k ∈ rest
      · rw [hrec, if_pos hk, if_pos (List.mem_cons_of_mem p hk)]
      · by_cases hkp : k = p
        · subst hkp
          rw [hrec, if_neg hk, lookupKey_insertKey_self,
            if_pos (List.mem_cons_self k rest), hread]
          rfl
        · rw [hrec, if_neg hk, lookupKey_insertKey_ne store p k (hash c) hkp,
            if_neg (by simp [hkp, hk])]

/-- A successful checksum update implies every candidate was readable. -/
theorem updateFileChecksums_readable (hash : Content → Digest) (fs : FS) :
    ∀ (files : List Path) (store s' : List (Path × Digest)),
      updateFileChecksums hash fs store files = some s' →
      ∀ p ∈ files, (readFile fs p).isSome := by
  intro files
  induction files with
  | nil => intro store s' _ p hp; exact absurd hp (List.not_mem_nil p)
  | cons q rest ih =>
    intro store s' h p hp
    unfold updateFileChecksums at h
    cases hread : readFile fs q with
    | none => rw [hread] at h; exact absurd h (by simp)
    | some c =>
      simp only [hread] at h
      rcases List.mem_cons.mp hp with rfl | hp'
      · simp [hread]
      · exact ih (insertKey store q (hash c)) s' h p hp'

/-! ## Active-mirror update lemmas -/

/-- Frame rule for the mirror update: a relative path that is no candidate's
relative path keeps its old mirror binding. -/
theorem updateActiveBackup_frame (fs : FS) (cwd : Path) :
    ∀ (files : List Path) (mirror m' : List (Path × Content)),
      updateActiveBackup fs cwd mirror files = some m' →
      ∀ r : Path, (∀ p ∈ files, relTo cwd p ≠ some r) →
        lookupKey r m' = lookupKey r mirror := by
  intro files
  induction files with
  | nil =>
    intro mirror m' h r _
    cases h
    rfl
  | cons q rest ih =>
    intro mirror m' h r hnone
    unfold updateActiveBackup at h
    cases hrel : relTo cwd q with
    | none =>
      simp only [hrel] at h
      exact ih mirror m' h r (fun p hp => hnone p (List.mem_cons_of_mem q hp))
    | some rq =>
      simp only [hrel] at h
      cases hread : readFile fs q with
      | none => rw [hread] at h; exact absurd h (by simp)
      | some c =>
        simp only [hread] at h
        rw [ih (insertKey mirror rq c) m' h r
          (fun p hp => hnone p (List.mem_cons_of_mem q hp))]
        exact lookupKey_insertKey_ne mirror rq r c
          (fun hrr => hnone q (List.mem_cons_self q rest) (hrr ▸ hrel))

/-- Point rule for the mirror update: a candidate's relative path ends up
bound to the candidate's current content, provided no other candidate shares
that relative path. -/
theorem updateActiveBackup_point (fs : FS) (cwd : Path) :
    ∀ (files : List Path) (mirror m' : List (Path × Content)),
      updateActiveBackup fs cwd mirror files = some m' →
      ∀ (p r : Path), p ∈ files → relTo cwd p = some r →
        (∀ q ∈ files, relTo cwd q = some r → q = p) →
        lookupKey r m' = readFile fs p := by
  intro files
  induction files with
  | nil => intro mirror m' _ p r hp; exact absurd hp (List.not_mem_nil p)
  | cons q rest ih =>
    intro mirror m' h p r hp hrelp huniq
    unfold updateActiveBackup at h
    cases hrel : relTo cwd q with
    | none =>
      simp only [hrel] at h
      have hpq : p ≠ q := fun hpq => by rw [hpq, hrel] at hrelp; cases hrelp
      have hp' : p ∈ rest := by
        rcases List.mem_cons.mp hp with rfl | hp'
        · exact absurd rfl hpq
        · exact hp'
      exact ih mirror m' h p r hp' hrelp
        (fun q' hq' => huniq q' (List.mem_cons_of_mem q hq'))
    | some rq =>
      simp only [hrel] at h
      cases hread : readFile fs q with
      | none => rw [hread] at h; exact absurd h (by simp)
      | some c =>
        simp only [hread] at h
        by_cases hpq : p = q
        · subst hpq
          have hrr : rq = r := by rw [hrel] at hrelp; cases hrelp; rfl
          subst hrr
          by_cases hpr : p ∈ rest
          · exact ih (insertKey mirror rq c) m' h p rq hpr hrelp
              (fun q' hq' => huniq q' (List.mem_cons_of_mem p hq'))
          · rw [updateActiveBackup_frame fs cwd rest (insertKey mirror rq c) m' h rq
              (fun q' hq' hq'r => hpr ((huniq q' (List.mem_cons_of_mem p hq') hq'r) ▸ hq')),
              lookupKey_insertKey_self, hread]
        · have hp' : p ∈ rest := by
            rcases List.mem_cons.mp hp with rfl | hp'
            · exact absurd rfl hpq
            · exact hp'
          have hrr : rq ≠ r := fun hrr =>
            hpq ((huniq q (List.mem_cons_self q rest) (hrr ▸ hrel)).symm)
          exact ih (insertKey mirror rq c) m' h p r hp' hrelp
            (fun q' hq' => huniq q' (List.mem_cons_of_mem q hq'))

/-- A successful mirror update implies every candidate under the root was
readable. -/
theorem updateActiveBackup_readable (fs : FS) (cwd : Path) :
    ∀ (files : List Path) (mirror m' : List (Path × Content)),
      updateActiveBackup fs cwd mirror files = some m' →
      ∀ p ∈ files, (relTo cwd p).isSome → (readFile fs p).isSome := by
  intro files
  induction files with
  | nil => intro mirror m' _ p hp; exact absurd hp (List.not_mem_nil p)
  | cons q rest ih =>
    intro mirror m' h p hp hrelp
    unfold updateActiveBackup at h
    cases hrel : relTo cwd q with
    | none =>
      simp only [hrel] at h
      rcases List.mem_cons.mp hp with rfl | hp'
      · rw [hrel] at hrelp; cases hrelp
      · exact ih mirror m' h p hp' hrelp
    | some rq =>
      simp only [hrel] at h
      cases hread : readFile fs q with
      | none => rw [hread] at h; exact absurd h (by simp)
      | some c =>
        simp only [hread] at h
        rcases List.mem_cons.mp hp with rfl | hp'
        · simp [hread]
        · exact ih (insertKey mirror rq c) m' h p hp' hrelp

/-! ## Archive-rotator lemmas -/

/-- Frame rule: a relative path that is no changed path's relative path keeps
whatever the accumulated archive tree holds. -/
theorem archiveLoop_frame (cwd : Path) (mirror : List (Path × Content)) :
    ∀ (changed : List Path) (arch : List (Path × Content)) (r : Path),
      (∀ p ∈ changed, relTo cwd p ≠ some r) →
      lookupKey r (archiveLoop cwd mirror arch changed) = lookupKey r arch := by
  intro changed
  induction changed with
  | nil => intro arch r _; rfl
  | cons q rest ih =>
    intro arch r hnone
    have hrest := fun p hp => hnone p (List.mem_cons_of_mem q hp)
    cases hrel : relTo cwd q with
    | none =>
      simp only [archiveLoop, hrel]
      exact ih arch r hrest
    | some rq =>
      cases hm : lookupKey rq mirror with
      | none =>
        simp only [archiveLoop, hrel, hm]
        exact ih arch r hrest
      | some c =>
        simp only [archiveLoop, hrel, hm]
        rw [ih (insertKey arch rq c) r hrest]
        exact lookupKey_insertKey_ne arch rq r c
          (fun hrr => hnone q (List.mem_cons_self q rest) (hrr ▸ hrel))

/-- Point rule, mirrored case: a changed path whose relative path the mirror
holds ends up archived with the mirror's (pre-change) content. -/
theorem archiveLoop_point_some (cwd : Path) (mirror : List (Path × Content)) :
    ∀ (changed : List Path) (arch : List (Path × Content)) (p r : Path)
      (c : Content), p ∈ changed → relTo cwd p = some r →
      (∀ q ∈ changed, relTo cwd q = some r → q = p) →
      lookupKey r mirror = some c →
      lookupKey r (archiveLoop cwd mirror arch changed) = some c := by
  intro changed
  induction changed with
  | nil => intro arch p r c hp; exact absurd hp (List.not_mem_nil p)
  | cons q rest ih =>
    intro arch p r c hp hrelp huniq hm
    have huniq' := fun q' hq' => huniq q' (List.mem_cons_of_mem q hq')
    cases hrel : relTo cwd q with
    | none =>
      have hpq : p ≠ q := fun hpq => by rw [hpq, hrel] at hrelp; cases hrelp
      have hp' : p ∈ rest := by
        rcases List.mem_cons.mp hp with rfl | hp'
        · exact absurd rfl hpq
        · exact hp'
      simp only [archiveLoop, hrel]
      exact ih arch p r c hp' hrelp huniq' hm
    | some rq =>
      by_cases hpq : p = q
      · subst hpq
        have hrr : rq = r := by rw [hrel] at hrelp; cases hrelp; rfl
        subst hrr
        simp only [archiveLoop, hrel, hm]
        by_cases hpr : p ∈ rest
        · exact ih (insertKey arch rq c) p rq c hpr hrelp huniq' hm
        · rw [archiveLoop_frame cwd mirror rest (insertKey arch rq c) rq
            (fun q' hq' hq'r => hpr ((huniq q' (List.mem_cons_of_mem p hq') hq'r) ▸ hq'))]
          exact lookupKey_insertKey_self arch rq c
      · have hp' : p ∈ rest := by
          rcases List.mem_cons.mp hp with rfl | hp'
          · exact absurd rfl hpq
          · exact hp'
        cases hm' : lookupKey rq mirror with
        | none =>
          simp only [archiveLoop, hrel, hm']
          exact ih arch p r c hp' hrelp huniq' hm
        | some c' =>
          simp only [archiveLoop, hrel, hm']
          exact ih (insertKey arch rq c') p r c hp' hrelp huniq' hm

/-- Point rule, unmirrored case: a changed path with no prior mirror entry at
its relative path contributes nothing to the archive. -/
theorem archiveLoop_point_none (cwd : Path) (mirror : List (Path × Content)) :
    ∀ (changed : List Path) (arch : List (Path × Content)) (p r : Path),
      p ∈ changed → relTo cwd p = some r →
      (∀ q ∈ changed, relTo cwd q = some r → q = p) →
      lookupKey r mirror = none →
      lookupKey r (archiveLoop cwd mirror arch changed) = lookupKey r arch := by
  intro changed
  induction changed with
  | nil => intro arch p r hp; exact absurd hp (List.not_mem_nil p)
  | cons q rest ih =>
    intro arch p r hp hrelp huniq hm
    have huniq' := fun q' hq' => huniq q' (List.mem_cons_of_mem q hq')
    cases hrel : relTo cwd q with
    | none =>
      have hpq : p ≠ q := fun hpq => by rw [hpq, hrel] at hrelp; cases hrelp
      have hp' : p ∈ rest := by
        rcases List.mem_cons.mp hp with rfl | hp'
        · exact absurd rfl hpq
        · exact hp'
      simp only [archiveLoop, hrel]
      exact ih arch p r hp' hrelp huniq' hm
    | some rq =>
      by_cases hpq : p = q
      · subst hpq
        have hrr : rq = r := by rw [hrel] at hrelp; cases hrelp; rfl
        subst hrr
        simp only [archiveLoop, hrel, hm]
        by_cases hpr : p ∈ rest
        · exact ih arch p rq hpr hrelp huniq' hm
        · exact archiveLoop_frame cwd mirror rest arch rq
            (fun q' hq' hq'r => hpr ((huniq q' (List.mem_cons_of_mem p hq') hq'r) ▸ hq'))
      · have hp' : p ∈ rest := by
          rcases List.mem_cons.mp hp with rfl | hp'
          · exact absurd rfl hpq
          · exact hp'
        have hrr : rq ≠ r := fun hrr =>
          hpq ((huniq q (List.mem_cons_self q rest) (hrr ▸ hrel)).symm)
        cases hm' : lookupKey rq mirror with
        | none =>
          simp only [archiveLoop, hrel, hm']
          exact ih arch p r hp' hrelp huniq' hm
        | some c' =>
          simp only [archiveLoop, hrel, hm']
          rw [ih (insertKey arch rq c') p r hp' hrelp huniq' hm]
          exact lookupKey_insertKey_ne arch rq r c' (Ne.symm hrr)

/-- Every archive entry comes from the accumulated tree or from a changed
path's relative path. -/
theorem archiveLoop_domain (cwd : Path) (mirror : List (Path × Content)) :
    ∀ (changed : List Path) (arch : List (Path × Content)) (r : Path),
      lookupKey r (archiveLoop cwd mirror arch changed) ≠ none →
      lookupKey r arch ≠ none ∨ ∃ p ∈ changed, relTo cwd p = some r := by
  intro changed
  induction changed with
  | nil => intro arch r h; exact Or.inl h
  | cons q rest ih =>
    intro arch r h
    cases hrel : relTo cwd q with
    | none =>
      simp only [archiveLoop, hrel] at h
      rcases ih arch r h with h' | ⟨p, hp, hrelp⟩
      · exact Or.inl h'
      · exact Or.inr ⟨p, List.mem_cons_of_mem q hp, hrelp⟩
    | some rq =>
      cases hm : lookupKey rq mirror with
      | none =>
        simp only [archiveLoop, hrel, hm] at h
        rcases ih arch r h with h' | ⟨p, hp, hrelp⟩
        · exact Or.inl h'
        · exact Or.inr ⟨p, List.mem_cons_of_mem q hp, hrelp⟩
      | some c =>
        simp only [archiveLoop, hrel, hm] at h
        rcases ih (insertKey arch rq c) r h with h' | ⟨p, hp, hrelp⟩
        · by_cases hrr : rq = r
          · exact Or.inr ⟨q, List.mem_cons_self q rest, hrr ▸ hrel⟩
          · rw [lookupKey_insertKey_ne arch rq r c (fun h2 => hrr h2.symm)] at h'
            exact Or.inl h'
        · exact Or.inr ⟨p, List.mem_cons_of_mem q hp, hrelp⟩

/-! ## Orchestrator unfolding -/

/-- Decomposition of a successful `create_backup` run into its pipeline
steps and the state and result it returns. -/
theorem createBackup_eq (hash : Content → Digest) (fs : FS) (cwd : Path)
    (st : EngineState) (now : Nat) (d l c : Bool)
    (st' : EngineState) (r : BackupResult)
    (h : createBackup hash fs cwd st now d l c = some (st', r)) :
    ∃ changed mirror1 store1,
      getChangedFiles hash fs st.fileChecksums
          (getFilesToBackup fs cwd d l c) = some changed ∧
      updateActiveBackup fs cwd st.mirror
          (getFilesToBackup fs cwd d l c) = some mirror1 ∧
      updateFileChecksums hash fs st.fileChecksums
          (getFilesToBackup fs cwd d l c) = some store1 ∧
      st' = { fileChecksums := store1, mirror := mirror1,
              archive := if changed.isEmpty then st.archive
                         else archiveChangedFiles cwd st.mirror changed,
              lastBackupTimestamp := now } ∧
      r = { success := true,
            files_processed := (getFilesToBackup fs cwd d l c).length,
            files_changed := changed.length, error_message := none } := by
  cases hch : getChangedFiles hash fs st.fileChecksums
      (getFilesToBackup fs cwd d l c) with
  | none =>
    simp only [createBackup, hch] at h
    exact Option.noConfusion h
  | some changed =>
    cases hmir : updateActiveBackup fs cwd st.mirror
        (getFilesToBackup fs cwd d l c) with
    | none =>
      simp only [createBackup, hch, hmir] at h
      exact Option.noConfusion h
    | some mirror1 =>
      cases hsto : updateFileChecksums hash fs st.fileChecksums
          (getFilesToBackup fs cwd d l c) with
      | none =>
        simp only [createBackup, hch, hmir, hsto] at h
        exact Option.noConfusion h
      | some store1 =>
        simp only [createBackup, hch, hmir, hsto, Option.some.injEq,
          Prod.mk.injEq] at h
        exact ⟨changed, mirror1, store1, rfl, rfl, rfl, h.1.symm, h.2.symm⟩

/-! ## Claim theorems -/

/-- C1: after any successful `create_backup` run, for every candidate path
`P` of that run, the fingerprint stored in the checksum store under `P`'s
key equals the fingerprint of the active mirror's copy of `P` (the source
filesystem is a fixed value during the run, embedding the claim's
no-external-mutation assumption). -/
theorem checksum_mirror_consistency (hash : Content → Digest) (fs : FS)
    (cwd : Path) (st : EngineState) (now : Nat) (d l c : Bool)
    (st' : EngineState) (r : BackupResult) (P : Path)
    (hrun : createBackup hash fs cwd st now d l c = some (st', r))
    (hP : P ∈ getFilesToBackup fs cwd d l c) :
    ∃ rel content, relTo cwd P = some rel ∧
      lookupKey rel st'.mirror = some content ∧
      lookupKey P st'.fileChecksums = some (hash content) := by
  obtain ⟨changed, mirror1, store1, hch, hmir, hsto, hst, hr⟩ :=
    createBackup_eq hash fs cwd st now d l c st' r hrun
  have hpref := getFilesToBackup_under_root fs cwd d l c P hP
  have hrel := relTo_of_under_root cwd P hpref
  have hread : (readFile fs P).isSome :=
    getChangedFiles_readable hash fs st.fileChecksums _ changed hch P hP
  obtain ⟨content, hcontent⟩ := Option.isSome_iff_exists.mp hread
  have huniq : ∀ q ∈ getFilesToBackup fs cwd d l c,
      relTo cwd q = some (P.drop cwd.length) → q = P :=
    fun q _ hq => relTo_inj cwd q P (P.drop cwd.length) hq hrel
  have hmirror : lookupKey (P.drop cwd.length) mirror1 = some content := by
    rw [updateActiveBackup_point fs cwd _ st.mirror mirror1 hmir P
      (P.drop cwd.length) hP hrel huniq, hcontent]
  have hstore : lookupKey P store1 = some (hash content) := by
    rw [updateFileChecksums_lookup hash fs _ st.fileChecksums store1 hsto P,
      if_pos hP, hcontent]
    rfl
  subst hst
  exact ⟨P.drop cwd.length, content, hrel, hmirror, hstore⟩

/-- C2: if a candidate path `P`'s content changes from `C_old` (recorded by
the previous successful run, present in the active mirror) to `C_new` before
a run, then after that successful run the archive holds `C_old` at `P`'s
relative path, the active mirror holds `C_new` there, and the archive
contains no entry for any relative path that does not come from this run's
changed set.  Collision resistance of the fingerprint is assumed as
injectivity of `hash`. -/
theorem diff_correctness (hash : Content → Digest)
    (hinj : Function.Injective hash) (fs : FS) (cwd : Path)
    (st : EngineState) (now : Nat) (d l c : Bool)
    (st' : EngineState) (r : BackupResult) (P rel : Path)
    (C_old C_new : Content)
    (hP : P ∈ getFilesToBackup fs cwd d l c)
    (hrel : relTo cwd P = some rel)
    (hmirror : lookupKey rel st.mirror = some C_old)
    (hstore : lookupKey P st.fileChecksums = some (hash C_old))
    (hnew : readFile fs P = some C_new)
    (hne : C_old ≠ C_new)
    (hrun : createBackup hash fs cwd st now d l c = some (st', r)) :
    ∃ changed,
      getChangedFiles hash fs st.fileChecksums
          (getFilesToBackup fs cwd d l c) = some changed ∧
      P ∈ changed ∧
      lookupKey rel st'.archive = some C_old ∧
      lookupKey rel st'.mirror = some C_new ∧
      (∀ q : Path, lookupKey q st'.archive ≠ none →
        ∃ p ∈ changed, relTo cwd p = some q) := by
  obtain ⟨changed, mirror1, store1, hch, hmir, hsto, hst, hr⟩ :=
    createBackup_eq hash fs cwd st now d l c st' r hrun
  have hPch : P ∈ changed := by
    rw [mem_getChangedFiles hash fs st.fileChecksums _ changed hch P]
    refine ⟨hP, ?_⟩
    rw [hstore, hnew]
    intro hcontra
    exact hne (hinj (Option.some.inj hcontra))
  have hchne : ¬(changed.isEmpty = true) := by
    intro hempty
    rw [List.isEmpty_iff] at hempty
    subst hempty
    exact absurd hPch (List.not_mem_nil P)
  have huniqch : ∀ q ∈ changed, relTo cwd q = some rel → q = P :=
    fun q _ hq => relTo_inj cwd q P rel hq hrel
  have harch : st'.archive = archiveChangedFiles cwd st.mirror changed := by
    rw [hst, if_neg hchne]
  refine ⟨changed, hch, hPch, ?_, ?_, ?_⟩
  · rw [harch]
    exact archiveLoop_point_some cwd st.mirror changed [] P rel C_old
      hPch hrel huniqch hmirror
  · have huniqf : ∀ q ∈ getFilesToBackup fs cwd d l c,
        relTo cwd q = some rel → q = P :=
      fun q _ hq => relTo_inj cwd q P rel hq hrel
    have := updateActiveBackup_point fs cwd _ st.mirror mirror1 hmir P rel
      hP hrel huniqf
    rw [hst]
    show lookupKey rel mirror1 = some C_new
    rw [this, hnew]
  · intro q hq
    rw [harch] at hq
    rcases archiveLoop_domain cwd st.mirror changed [] q hq with h' | h'
    · exact absurd rfl h'
    · exact h'

/-- C5: a successful run immediately followed by a second successful run
over the same switches, with no filesystem mutation in between, yields
`files_changed = 0`, and leaves the archive exactly as the first run left
it (rotation is not triggered because the changed set is empty). -/
theorem idempotent_second_run (hash : Content → Digest) (fs : FS)
    (cwd : Path) (st : EngineState) (now1 now2 : Nat) (d l c : Bool)
    (st1 st2 : EngineState) (r1 r2 : BackupResult)
    (h1 : createBackup hash fs cwd st now1 d l c = some (st1, r1))
    (h2 : createBackup hash fs cwd st1 now2 d l c = some (st2, r2)) :
    r2.files_changed = 0 ∧ st2.archive = st1.archive := by
  obtain ⟨ch1, m1, s1, hch1, hmir1, hsto1, hst1, hr1⟩ :=
    createBackup_eq hash fs cwd st now1 d l c st1 r1 h1
  obtain ⟨ch2, m2, s2, hch2, hmir2, hsto2, hst2, hr2⟩ :=
    createBackup_eq hash fs cwd st1 now2 d l c st2 r2 h2
  have hup : ∀ p ∈ getFilesToBackup fs cwd d l c,
      lookupKey p st1.fileChecksums = Option.map hash (readFile fs p) := by
    intro p hp
    rw [hst1]
    show lookupKey p s1 = _
    rw [updateFileChecksums_lookup hash fs _ st.fileChecksums s1 hsto1 p,
      if_pos hp]
  have hch2nil : ch2 = [] :=
    getChangedFiles_up_to_date hash fs st1.fileChecksums _ ch2 hch2 hup
  subst hch2nil
  constructor
  · rw [hr2]
    rfl
  · rw [hst2]
    rfl

/-- C6: a run from an empty checksum store (the first run ever) reports
every candidate as changed: `files_changed = files_processed`. -/
theorem first_run_all_changed (hash : Content → Digest) (fs : FS)
    (cwd : Path) (st : EngineState) (now : Nat) (d l c : Bool)
    (st' : EngineState) (r : BackupResult)
    (hempty : st.fileChecksums = [])
    (hne : getFilesToBackup fs cwd d l c ≠ [])
    (hrun : createBackup hash fs cwd st now d l c = some (st', r)) :
    r.files_changed = r.files_processed := by
  obtain ⟨changed, m1, s1, hch, hmir, hsto, hst, hr⟩ :=
    createBackup_eq hash fs cwd st now d l c st' r hrun
  rw [hempty] at hch
  have hcf := getChangedFiles_nil_store hash fs _ changed hch
  rw [hr, hcf]

/-- C7: a candidate path appearing for the first time (no stored checksum
and no prior mirror entry) is counted in `files_changed` but produces no
archive entry after the run. -/
theorem new_file_exclusion (hash : Content → Digest) (fs : FS)
    (cwd : Path) (st : EngineState) (now : Nat) (d l c : Bool)
    (st' : EngineState) (r : BackupResult) (P rel : Path)
    (hP : P ∈ getFilesToBackup fs cwd d l c)
    (hrel : relTo cwd P = some rel)
    (hstore : lookupKey P st.fileChecksums = none)
    (hmirror : lookupKey rel st.mirror = none)
    (hrun : createBackup hash fs cwd st now d l c = some (st', r)) :
    ∃ changed,
      getChangedFiles hash fs st.fileChecksums
          (getFilesToBackup fs cwd d l c) = some changed ∧
      P ∈ changed ∧ r.files_changed = changed.length ∧
      lookupKey rel st'.archive = none := by
  obtain ⟨changed, m1, s1, hch, hmir, hsto, hst, hr⟩ :=
    createBackup_eq hash fs cwd st now d l c st' r hrun
  have hread : (readFile fs P).isSome :=
    getChangedFiles_readable hash fs st.fileChecksums _ changed hch P hP
  obtain ⟨content, hcontent⟩ := Option.isSome_iff_exists.mp hread
  have hPch : P ∈ changed := by
    rw [mem_getChangedFiles hash fs st.fileChecksums _ changed hch P]
    refine ⟨hP, ?_⟩
    rw [hstore, hcontent]
    exact fun hcontra => Option.noConfusion hcontra
  have hchne : ¬(changed.isEmpty = true) := by
    intro hempty
    rw [List.isEmpty_iff] at hempty
    subst hempty
    exact absurd hPch (List.not_mem_nil P)
  have huniqch : ∀ q ∈ changed, relTo cwd q = some rel → q = P :=
    fun q _ hq => relTo_inj cwd q P rel hq hrel
  refine ⟨changed, hch, hPch, by rw [hr], ?_⟩
  rw [hst]
  show lookupKey rel
    (if changed.isEmpty = true then st.archive
     else archiveChangedFiles cwd st.mirror changed) = none
  rw [if_neg hchne]
  exact archiveLoop_point_none cwd st.mirror changed [] P rel
    hPch hrel huniqch hmirror

/-- C9: the checksum-store update replaces entries for exactly the run's
candidate paths: every key that is not a candidate keeps its old fingerprint
(stale entries are preserved), and every candidate key gets the digest of
its current content. -/
theorem checksum_update_frame (hash : Content → Digest) (fs : FS)
    (files : List Path) (store s' : List (Path × Digest))
    (h : updateFileChecksums hash fs store files = some s') :
    (∀ k, k ∉ files → lookupKey k s' = lookupKey k store) ∧
    (∀ p ∈ files, lookupKey p s' = Option.map hash (readFile fs p)) := by
  constructor
  · intro k hk
    rw [updateFileChecksums_lookup hash fs files store s' h k, if_neg hk]
  · intro p hp
    rw [updateFileChecksums_lookup hash fs files store s' h p, if_pos hp]

/-- C10: the `include_data` switch has no effect on the outcome: for every
filesystem state, engine state and choice of the other two switches, the
candidate set and the whole run outcome (final engine state and result) are
identical for any two values of `include_data`.  (Wall-clock time is outside
the model, so the equality is exactly "up to elapsed time".) -/
theorem include_data_no_effect (hash : Content → Digest) (fs : FS)
    (cwd : Path) (st : EngineState) (now : Nat) (dat1 dat2 l c : Bool) :
    getFilesToBackup fs cwd dat1 l c = getFilesToBackup fs cwd dat2 l c ∧
    createBackup hash fs cwd st now dat1 l c =
      createBackup hash fs cwd st now dat2 l c :=
  ⟨rfl, rfl⟩

/-- The change detector reads the checksum store only at the candidates'
full-path keys: stores agreeing there are indistinguishable to it. -/
theorem getChangedFiles_store_agree (hash : Content → Digest) (fs : FS) :
    ∀ (files : List Path) (store1 store2 : List (Path × Digest)),
      (∀ p ∈ files, lookupKey p store1 = lookupKey p store2) →
      getChangedFiles hash fs store1 files =
        getChangedFiles hash fs store2 files := by
  intro files
  induction files with
  | nil => intro store1 store2 _; rfl
  | cons p rest ih =>
    intro store1 store2 hag
    unfold getChangedFiles
    rw [ih store1 store2 (fun q hq => hag q (List.mem_cons_of_mem p hq)),
      hag p (List.mem_cons_self p rest)]

/-- C8 (counterexample): the source keys the checksum store by the
candidate's full path (`file_path.to_string_lossy()` on the absolute path
produced by joining the project root), not by its relative path.  In the
concrete first run over `fsOne`, the persisted store has no entry under the
relative path `data_core/x.txt` and holds the fingerprint under the full
path `r/data_core/x.txt`. -/
theorem checksum_relative_key_counterexample :
    createBackup id fsOne ["r"] emptyEngine 7 false false false =
      some (engineAfterOne,
        { success := true, files_processed := 1, files_changed := 1,
          error_message := none }) ∧
    lookupKey ["data_core", "x.txt"] engineAfterOne.fileChecksums = none ∧
    lookupKey ["r", "data_core", "x.txt"] engineAfterOne.fileChecksums =
      some [65] := by
  refine ⟨?_, ?_, ?_⟩ <;> decide

/-- C8 (amended): the checksum store is keyed by the candidate file's full
path: persisting writes each candidate's fingerprint under its full-path
key and touches no other key, and the change detector's lookups depend on
the store only through the candidates' full-path keys. -/
theorem checksum_full_path_keys (hash : Content → Digest) (fs : FS)
    (files : List Path) (store s' store2 : List (Path × Digest))
    (h : updateFileChecksums hash fs store files = some s')
    (hagree : ∀ p ∈ files, lookupKey p store = lookupKey p store2) :
    (∀ p ∈ files, lookupKey p s' = Option.map hash (readFile fs p)) ∧
    (∀ k, lookupKey k s' ≠ lookupKey k store → k ∈ files) ∧
    getChangedFiles hash fs store files =
      getChangedFiles hash fs store2 files := by
  refine ⟨?_, ?_, getChangedFiles_store_agree hash fs files store store2 hagree⟩
  · intro p hp
    rw [updateFileChecksums_lookup hash fs files store s' h p, if_pos hp]
  · intro k hk
    by_cases hkf : k ∈ files
    · exact hkf
    · rw [updateFileChecksums_lookup hash fs files store s' h k,
        if_neg hkf] at hk
      exact absurd rfl hk

/-- C3 (counterexample): a run over a tree whose sole candidate exists but
cannot be read (an I/O read failure) does not return any `BackupResult` —
in particular none with `success = false` — the error propagates to the
caller (`Err` in Rust, a raised exception through the PyO3 wrapper). -/
theorem io_failure_propagates_counterexample :
    createBackup id fsOneBad ["r"] emptyEngine 7 true true true = none := by
  decide

/-- C3 (amended): `create_backup` never reports failure through its result
value: whenever it returns a `BackupResult` at all, that result has
`success = true` and no error message; an I/O failure instead propagates as
an error to the caller (the run returns no result). -/
theorem result_always_success (hash : Content → Digest) (fs : FS)
    (cwd : Path) (st : EngineState) (now : Nat) (d l c : Bool)
    (st' : EngineState) (r : BackupResult)
    (h : createBackup hash fs cwd st now d l c = some (st', r)) :
    r.success = true ∧ r.error_message = none := by
  obtain ⟨changed, m1, s1, hch, hmir, hsto, hst, hr⟩ :=
    createBackup_eq hash fs cwd st now d l c st' r h
  rw [hr]
  exact ⟨rfl, rfl⟩

/-- C4 (counterexample): engine initialization is not resilient to an
unparsable tracking record: with the checksum-store file absent and the
tracking file present but unparsable, `RustBackupCore::new` fails (the
parse error is propagated by the `?` operator) instead of substituting the
defaults. -/
theorem init_unparsable_tracking_counterexample :
    initCore ParseOutcome.missing ParseOutcome.unparsable = none := by
  decide

/-- C4 (amended): initialization recovers only from a corrupt checksum
store: an unparsable checksum-store file is treated exactly like a missing
one (empty mapping, initialization succeeds), while an unparsable tracking
record file always fails initialization; a missing tracking file, or one
parsed without a usable timestamp field, defaults the timestamp to 0. -/
theorem init_corrupt_state_asymmetry :
    (∀ t : ParseOutcome (Option Nat),
      initCore ParseOutcome.unparsable t = initCore ParseOutcome.missing t) ∧
    (∀ cs : ParseOutcome (List (Path × Digest)),
      initCore cs ParseOutcome.unparsable = none) ∧
    (∀ m : List (Path × Digest),
      initCore (ParseOutcome.parsed m) ParseOutcome.missing =
        some { fileChecksums := m, lastBackupTimestamp := 0 }) ∧
    (∀ m : List (Path × Digest),
      initCore (ParseOutcome.parsed m) (ParseOutcome.parsed none) =
        some { fileChecksums := m, lastBackupTimestamp := 0 }) := by
  refine ⟨fun t => rfl, fun cs => ?_, fun m => rfl, fun m => rfl⟩
  cases cs <;> rfl

/-! ## Witnesses

Each hypothesis-bearing claim theorem instantiated at a concrete run. -/

/-- C1 instantiated at the first run over `fsOne`. -/
theorem checksum_mirror_consistency_witness :
    ∃ rel content,
      relTo ["r"] ["r", "data_core", "x.txt"] = some rel ∧
      lookupKey rel engineAfterOne.mirror = some content ∧
      lookupKey ["r", "data_core", "x.txt"] engineAfterOne.fileChecksums =
        some (id content) :=
  checksum_mirror_consistency id fsOne ["r"] emptyEngine 7 false false false
    engineAfterOne
    { success := true, files_processed := 1, files_changed := 1,
      error_message := none }
    ["r", "data_core", "x.txt"] (by decide) (by decide)

/-- C2 instantiated at the edit-then-rerun scenario `fsOne` → `fsOneB`. -/
theorem diff_correctness_witness :
    ∃ changed,
      getChangedFiles id fsOneB engineAfterOne.fileChecksums
          (getFilesToBackup fsOneB ["r"] false false false) = some changed ∧
      ["r", "data_core", "x.txt"] ∈ changed ∧
      lookupKey ["data_core", "x.txt"] engineAfterTwo.archive = some [65] ∧
      lookupKey ["data_core", "x.txt"] engineAfterTwo.mirror = some [66] ∧
      (∀ q : Path, lookupKey q engineAfterTwo.archive ≠ none →
        ∃ p ∈ changed, relTo ["r"] p = some q) :=
  diff_correctness id Function.injective_id fsOneB ["r"] engineAfterOne 8
    false false false engineAfterTwo
    { success := true, files_processed := 1, files_changed := 1,
      error_message := none }
    ["r", "data_core", "x.txt"] ["data_core", "x.txt"] [65] [66]
    (by decide) (by decide) (by decide) (by decide) (by decide) (by decide)
    (by decide)

/-- C5 instantiated at two consecutive runs over the unchanged `fsOne`. -/
theorem idempotent_second_run_witness :
    ({ success := true, files_processed := 1, files_changed := 0,
       error_message := none } : BackupResult).files_changed = 0 ∧
    engineAfterIdem.archive = engineAfterOne.archive :=
  idempotent_second_run id fsOne ["r"] emptyEngine 7 8 false false false
    engineAfterOne engineAfterIdem
    { success := true, files_processed := 1, files_changed := 1,
      error_message := none }
    { success := true, files_processed := 1, files_changed := 0,
      error_message := none }
    (by decide) (by decide)

/-- C6 instantiated at the first run over `fsOne` from an empty store. -/
theorem first_run_all_changed_witness :
    ({ success := true, files_processed := 1, files_changed := 1,
       error_message := none } : BackupResult).files_changed =
    ({ success := true, files_processed := 1, files_changed := 1,
       error_message := none } : BackupResult).files_processed :=
  first_run_all_changed id fsOne ["r"] emptyEngine 7 false false false
    engineAfterOne
    { success := true, files_processed := 1, files_changed := 1,
      error_message := none }
    (by decide) (by decide) (by decide)

/-- C7 instantiated at the first appearance of `data_core/x.txt`. -/
theorem new_file_exclusion_witness :
    ∃ changed,
      getChangedFiles id fsOne emptyEngine.fileChecksums
          (getFilesToBackup fsOne ["r"] false false false) = some changed ∧
      ["r", "data_core", "x.txt"] ∈ changed ∧
      ({ success := true, files_processed := 1, files_changed := 1,
         error_message := none } : BackupResult).files_changed =
        changed.length ∧
      lookupKey ["data_core", "x.txt"] engineAfterOne.archive = none :=
  new_file_exclusion id fsOne ["r"] emptyEngine 7 false false false
    engineAfterOne
    { success := true, files_processed := 1, files_changed := 1,
      error_message := none }
    ["r", "data_core", "x.txt"] ["data_core", "x.txt"]
    (by decide) (by decide) (by decide) (by decide) (by decide)

/-- C9 instantiated at a store holding one stale entry. -/
theorem checksum_update_frame_witness :
    (∀ k : Path, k ∉ [(["r", "data_core", "x.txt"] : Path)] →
      lookupKey k [( (["r", "data_core", "x.txt"] : Path), ([65] : Digest) ),
                   ( (["other"] : Path), ([9] : Digest) )] =
        lookupKey k [( (["other"] : Path), ([9] : Digest) )]) ∧
    (∀ p ∈ [(["r", "data_core", "x.txt"] : Path)],
      lookupKey p [( (["r", "data_core", "x.txt"] : Path), ([65] : Digest) ),
                   ( (["other"] : Path), ([9] : Digest) )] =
        Option.map id (readFile fsOne p)) :=
  checksum_update_frame id fsOne [["r", "data_core", "x.txt"]]
    [(["other"], [9])]
    [(["r", "data_core", "x.txt"], [65]), (["other"], [9])]
    (by decide)

/-- C8 (amended) instantiated at the first run's checksum rewrite. -/
theorem checksum_full_path_keys_witness :
    (∀ p ∈ [(["r", "data_core", "x.txt"] : Path)],
      lookupKey p [( (["r", "data_core", "x.txt"] : Path), ([65] : Digest) )] =
        Option.map id (readFile fsOne p)) ∧
    (∀ k : Path,
      lookupKey k [( (["r", "data_core", "x.txt"] : Path), ([65] : Digest) )] ≠
        lookupKey k ([] : List (Path × Digest)) →
      k ∈ [(["r", "data_core", "x.txt"] : Path)]) ∧
    getChangedFiles id fsOne [] [["r", "data_core", "x.txt"]] =
      getChangedFiles id fsOne [] [["r", "data_core", "x.txt"]] :=
  checksum_full_path_keys id fsOne [["r", "data_core", "x.txt"]] []
    [(["r", "data_core", "x.txt"], [65])] []
    (by decide) (fun p _ => rfl)

/-- C3 (amended) instantiated at the first run over `fsOne`. -/
theorem result_always_success_witness :
    ({ success := true, files_processed := 1, files_changed := 1,
       error_message := none } : BackupResult).success = true ∧
    ({ success := true, files_processed := 1, files_changed := 1,
       error_message := none } : BackupResult).error_message = none :=
  result_always_success id fsOne ["r"] emptyEngine 7 false false false
    engineAfterOne
    { success := true, files_processed := 1, files_changed := 1,
      error_message := none }
    (by decide)

end AIOSBackup
